import Mathlib

/-!
Verification development for the YOLO ONNX detection postprocessing pipeline
(`api/_utils/object_detection/onnx_detector.py`), the batch vehicle-counting
caller (`api/_utils/object_detection/run_func.py`) and the Lambda handler
(`lambda/handler.py`).

The Python code is shallowly embedded: pixel/score values are rationals (ℚ),
Python `round` is `pyRound` (round half to even, as Python 3 `round`),
fallible code returns `Except`/`Option`.  Numpy float arithmetic is modelled
by exact rational arithmetic; the one place where floating-point
non-finiteness matters (division by a zero IoU denominator, producing NaN)
is modelled by `Option ℚ` with `none` for the non-finite outcome, and the
numpy comparison `NaN <= t = False` is reflected in `iouLeB`.
-/

/-- Python 3 `round`: round half to even, returning an integer. -/
def pyRound (q : ℚ) : ℤ :=
  if q - ⌊q⌋ = 1/2 then (if Even ⌊q⌋ then ⌊q⌋ else ⌊q⌋ + 1) else round q

/-- The scale ratio of `YOLO_ONNX._letterbox` / `YOLO_ONNX._scale_boxes`:
`r = min(new_shape[0] / shape[0], new_shape[1] / shape[1])`, i.e.
`min(target_h/orig_h, target_w/orig_w)`.  Both source functions compute the
same expression (`_scale_boxes` calls it `gain`). -/
def gainOf (h w H W : ℕ) : ℚ := min ((H : ℚ) / (h : ℚ)) ((W : ℚ) / (w : ℚ))

/-- `new_unpad[0] = int(round(shape[1] * r))` in `_letterbox`: resized width. -/
def newUnpadW (h w H W : ℕ) : ℤ := pyRound ((w : ℚ) * gainOf h w H W)

/-- `new_unpad[1] = int(round(shape[0] * r))` in `_letterbox`: resized height. -/
def newUnpadH (h w H W : ℕ) : ℤ := pyRound ((h : ℚ) * gainOf h w H W)

/-- `top = int(round(dh - 0.1))` in `_letterbox`, where
`dh = (new_shape[0] - new_unpad[1]) / 2`. -/
def padTop (h w H W : ℕ) : ℤ :=
  pyRound (((H : ℚ) - (newUnpadH h w H W : ℚ)) / 2 - 1/10)

/-- `bottom = int(round(dh + 0.1))` in `_letterbox`. -/
def padBottom (h w H W : ℕ) : ℤ :=
  pyRound (((H : ℚ) - (newUnpadH h w H W : ℚ)) / 2 + 1/10)

/-- `left = int(round(dw - 0.1))` in `_letterbox`, where
`dw = (new_shape[1] - new_unpad[0]) / 2`. -/
def padLeft (h w H W : ℕ) : ℤ :=
  pyRound (((W : ℚ) - (newUnpadW h w H W : ℚ)) / 2 - 1/10)

/-- `right = int(round(dw + 0.1))` in `_letterbox`. -/
def padRight (h w H W : ℕ) : ℤ :=
  pyRound (((W : ℚ) - (newUnpadW h w H W : ℚ)) / 2 + 1/10)

/-- Height of the canvas produced by `_letterbox` (`cv2.copyMakeBorder` adds
`top` and `bottom` rows to the resized image of height `new_unpad[1]`). -/
def letterOutH (h w H W : ℕ) : ℤ :=
  newUnpadH h w H W + padTop h w H W + padBottom h w H W

/-- Width of the canvas produced by `_letterbox`. -/
def letterOutW (h w H W : ℕ) : ℤ :=
  newUnpadW h w H W + padLeft h w H W + padRight h w H W

/-- `pad_x = (self.input_width - orig_shape[1] * gain) / 2` in `_scale_boxes`. -/
def padXOf (h w H W : ℕ) : ℚ := ((W : ℚ) - (w : ℚ) * gainOf h w H W) / 2

/-- `pad_y = (self.input_height - orig_shape[0] * gain) / 2` in `_scale_boxes`. -/
def padYOf (h w H W : ℕ) : ℚ := ((H : ℚ) - (h : ℚ) * gainOf h w H W) / 2

/-- One x-coordinate of `_scale_boxes`: `(x - pad_x) / gain`, then
`clip(0, orig_shape[1])` (numpy clip: maximum with the low bound first,
then minimum with the high bound). -/
def unscaleX (h w H W : ℕ) (x : ℚ) : ℚ :=
  min (max ((x - padXOf h w H W) / gainOf h w H W) 0) (w : ℚ)

/-- One y-coordinate of `_scale_boxes`: `(y - pad_y) / gain`, then
`clip(0, orig_shape[0])`. -/
def unscaleY (h w H W : ℕ) (y : ℚ) : ℚ :=
  min (max ((y - padYOf h w H W) / gainOf h w H W) 0) (h : ℚ)

/-- The forward map of the round-trip property (spec §8): an original-space
x-coordinate scaled into canvas space with the letterbox ratio and padding. -/
def toCanvasX (h w H W : ℕ) (x : ℚ) : ℚ := x * gainOf h w H W + padXOf h w H W

/-- The forward map of the round-trip property for y-coordinates. -/
def toCanvasY (h w H W : ℕ) (y : ℚ) : ℚ := y * gainOf h w H W + padYOf h w H W

/-- `pyRound` agrees with the stated integer on the open interval
`(n - 1/2, n + 1/2)`; on that interval the half-to-even tie case is
impossible, so Python rounding and ordinary rounding agree. -/
theorem pyRound_eq_of (q : ℚ) (n : ℤ) (h1 : (n : ℚ) - 1/2 < q)
    (h2 : q < (n : ℚ) + 1/2) : pyRound q = n := by
  have hfl : ¬ (q - ⌊q⌋ = 1/2) := by
    intro hc
    have hq : q = (⌊q⌋ : ℚ) + 1/2 := by linarith
    have hlt : (⌊q⌋ : ℚ) < n := by linarith [hq ▸ h2]
    have hgt : (n : ℚ) - 1 < ⌊q⌋ := by linarith [hq ▸ h1]
    have hlt' : ⌊q⌋ < n := by exact_mod_cast hlt
    have hgt' : n - 1 < ⌊q⌋ := by exact_mod_cast hgt
    omega
  rw [pyRound, if_neg hfl, round_eq, Int.floor_eq_iff]
  constructor
  · linarith
  · push_cast
    linarith

/-- The scale ratio for a 720-high, 1280-wide image on a 640×640 canvas is
exactly 1/2 (`640/1280 < 640/720`, so the minimum is the width ratio). -/
theorem gain_720_1280 : gainOf 720 1280 640 640 = 1/2 := by
  unfold gainOf
  rw [min_eq_right (by norm_num)]
  norm_num

/-- The letterbox padding split: for any integer amount `d` of unused space,
`round(d/2 - 0.1) + round(d/2 + 0.1) = d`. -/
theorem padSplit_sum (d : ℤ) :
    pyRound ((d : ℚ) / 2 - 1/10) + pyRound ((d : ℚ) / 2 + 1/10) = d := by
  rcases Int.even_or_odd d with ⟨k, hk⟩ | ⟨k, hk⟩
  · subst hk
    have h1 : pyRound ((((k + k : ℤ)) : ℚ) / 2 - 1/10) = k := by
      apply pyRound_eq_of
      · push_cast; linarith
      · push_cast; linarith
    have h2 : pyRound ((((k + k : ℤ)) : ℚ) / 2 + 1/10) = k := by
      apply pyRound_eq_of
      · push_cast; linarith
      · push_cast; linarith
    rw [h1, h2]
  · subst hk
    have h1 : pyRound ((((2 * k + 1 : ℤ)) : ℚ) / 2 - 1/10) = k := by
      apply pyRound_eq_of
      · push_cast; linarith
      · push_cast; linarith
    have h2 : pyRound ((((2 * k + 1 : ℤ)) : ℚ) / 2 + 1/10) = k + 1 := by
      apply pyRound_eq_of
      · push_cast; linarith
      · push_cast; linarith
    rw [h1, h2]; ring

/-- Claim C8: for every input image with positive height and width and every
target canvas size, the letterboxed output has dimensions exactly
`(target_h, target_w)`: the rounded resize dimensions plus the two padding
amounts from the `round(d/2 - 0.1)` / `round(d/2 + 0.1)` split sum exactly
to the target on each axis, regardless of input aspect ratio. -/
theorem c8_letterbox_dims (h w H W : ℕ) (hh : 0 < h) (hw : 0 < w) :
    letterOutH h w H W = (H : ℤ) ∧ letterOutW h w H W = (W : ℤ) := by
  constructor
  · have hs : padTop h w H W + padBottom h w H W = (H : ℤ) - newUnpadH h w H W := by
      have := padSplit_sum ((H : ℤ) - newUnpadH h w H W)
      have hcast : (((H : ℤ) - newUnpadH h w H W : ℤ) : ℚ)
          = (H : ℚ) - (newUnpadH h w H W : ℚ) := by push_cast; ring
      rw [hcast] at this
      unfold padTop padBottom
      exact this
    unfold letterOutH
    omega
  · have hs : padLeft h w H W + padRight h w H W = (W : ℤ) - newUnpadW h w H W := by
      have := padSplit_sum ((W : ℤ) - newUnpadW h w H W)
      have hcast : (((W : ℤ) - newUnpadW h w H W : ℤ) : ℚ)
          = (W : ℚ) - (newUnpadW h w H W : ℚ) := by push_cast; ring
      rw [hcast] at this
      unfold padLeft padRight
      exact this
    unfold letterOutW
    omega

/-- Claim C8 witness: a 720×1280 image letterboxed to a 640×640 canvas has
output dimensions exactly 640×640. -/
theorem c8_witness :
    letterOutH 720 1280 640 640 = ((640 : ℕ) : ℤ)
    ∧ letterOutW 720 1280 640 640 = ((640 : ℕ) : ℤ) :=
  c8_letterbox_dims 720 1280 640 640 (by norm_num) (by norm_num)

/-- Claim C4 counterexample: for the literal 1280×720 input on a 640×640
canvas, the rescaler's `pad_y` is not 100 — it is 140, as the formula
`(640 - 720*0.5)/2 = 280/2` gives.  The claim's `pad_y = 100` is false. -/
theorem c4_counterexample : padYOf 720 1280 640 640 ≠ 100 := by
  unfold padYOf
  rw [gain_720_1280]
  norm_num

/-- Claim C4 (amended): letterboxing a 1280×720 image to a 640×640 canvas
uses `ratio = 0.5`, `pad_x = 0` and `pad_y = 140` (not 100); the letterbox
integer split likewise pads 140 rows on top and 140 on the bottom. -/
theorem c4_letterbox_values :
    gainOf 720 1280 640 640 = 1/2
    ∧ padXOf 720 1280 640 640 = 0
    ∧ padYOf 720 1280 640 640 = 140
    ∧ padTop 720 1280 640 640 = 140
    ∧ padBottom 720 1280 640 640 = 140 := by
  have hg := gain_720_1280
  have hnh : newUnpadH 720 1280 640 640 = 360 := by
    unfold newUnpadH
    rw [hg]
    apply pyRound_eq_of <;> norm_num
  refine ⟨hg, ?_, ?_, ?_, ?_⟩
  · unfold padXOf
    rw [hg]
    norm_num
  · unfold padYOf
    rw [hg]
    norm_num
  · unfold padTop
    rw [hnh]
    apply pyRound_eq_of <;> norm_num
  · unfold padBottom
    rw [hnh]
    apply pyRound_eq_of <;> norm_num

/-- Claim C9: for every original image size and every coordinate pair inside
the original image bounds, scaling into canvas space with the letterbox
ratio and padding and then applying `_scale_boxes` (unpad first, then divide
by the ratio, then clip to `[0, orig_dim]`) recovers the original
coordinates exactly — in particular to within 1 pixel. -/
theorem c9_roundtrip (h w H W : ℕ) (x y : ℚ) (hh : 0 < h) (hw : 0 < w)
    (hH : 0 < H) (hW : 0 < W) (hx0 : 0 ≤ x) (hxw : x ≤ (w : ℚ))
    (hy0 : 0 ≤ y) (hyh : y ≤ (h : ℚ)) :
    unscaleX h w H W (toCanvasX h w H W x) = x
    ∧ unscaleY h w H W (toCanvasY h w H W y) = y := by
  have hg : 0 < gainOf h w H W := by
    apply lt_min
    · exact div_pos (by exact_mod_cast hH) (by exact_mod_cast hh)
    · exact div_pos (by exact_mod_cast hW) (by exact_mod_cast hw)
  constructor
  · unfold unscaleX toCanvasX
    have hcan : (x * gainOf h w H W + padXOf h w H W - padXOf h w H W)
        / gainOf h w H W = x := by
      field_simp
    rw [hcan, max_eq_left hx0, min_eq_left hxw]
  · unfold unscaleY toCanvasY
    have hcan : (y * gainOf h w H W + padYOf h w H W - padYOf h w H W)
        / gainOf h w H W = y := by
      field_simp
    rw [hcan, max_eq_left hy0, min_eq_left hyh]

/-- Claim C9 witness: the corner (100, 50) of a 720×1280 image survives the
canvas round-trip through a 640×640 canvas unchanged. -/
theorem c9_witness :
    unscaleX 720 1280 640 640 (toCanvasX 720 1280 640 640 100) = 100
    ∧ unscaleY 720 1280 640 640 (toCanvasY 720 1280 640 640 50) = 50 :=
  c9_roundtrip 720 1280 640 640 100 50 (by norm_num) (by norm_num)
    (by norm_num) (by norm_num) (by norm_num) (by norm_num) (by norm_num)
    (by norm_num)

/-- An axis-aligned box in xyxy form, as stored in the rows handled by
`YOLO_ONNX._nms` and `YOLO_ONNX.postprocess`. -/
structure Box where
  x1 : ℚ
  y1 : ℚ
  x2 : ℚ
  y2 : ℚ
deriving DecidableEq, Repr

/-- `areas = (x2 - x1) * (y2 - y1)` in `_nms` — no clamping, no `+1`. -/
def boxArea (b : Box) : ℚ := (b.x2 - b.x1) * (b.y2 - b.y1)

/-- The overlap term of `_nms`:
`w = max(0, xx2 - xx1)`, `h = max(0, yy2 - yy1)`, `inter = w * h` with
`xx1 = max(x1[i], x1[j])`, `xx2 = min(x2[i], x2[j])` and similarly for y. -/
def interArea (a b : Box) : ℚ :=
  max 0 (min a.x2 b.x2 - max a.x1 b.x1) * max 0 (min a.y2 b.y2 - max a.y1 b.y1)

/-- The denominator of the `_nms` IoU: `areas[i] + areas[j] - inter`. -/
def iouDen (a b : Box) : ℚ := boxArea a + boxArea b - interArea a b

/-- `iou = inter / (areas[i] + areas[j] - inter)` in `_nms`.  The source has
no zero-area guard; in numpy a zero denominator produces a non-finite float
(`inter` is always ≥ 0, and a zero denominator forces `inter = 0`, so the
result there is `0.0/0.0 = NaN`).  `none` models that non-finite outcome. -/
def iouVal (a b : Box) : Option ℚ :=
  if iouDen a b = 0 then none else some (interArea a b / iouDen a b)

/-- The suppression test of `_nms`: `iou <= iou_threshold`.  In numpy a NaN
comparison is `False`, so the `none` (NaN) case yields `false`. -/
def iouLeB (a b : Box) (t : ℚ) : Bool :=
  match iouVal a b with
  | none => false
  | some q => decide (q ≤ t)

/-- Claim C3 counterexample: for the zero-area box `(0,0,0,0)` paired with
itself, the `_nms` IoU denominator is zero and the division is `0/0` — a NaN
in the floating-point source, not the claimed zero.  There is no explicit
`area <= 0` guard in the code. -/
theorem c3_counterexample :
    boxArea ⟨0, 0, 0, 0⟩ = 0 ∧ iouVal ⟨0, 0, 0, 0⟩ ⟨0, 0, 0, 0⟩ = none := by
  constructor
  · simp [boxArea]
  · simp [iouVal, iouDen, boxArea, interArea]

/-- The intersection term never exceeds the area of a well-formed box. -/
theorem interArea_le_boxArea (a b : Box) (hb1 : b.x1 ≤ b.x2)
    (hb2 : b.y1 ≤ b.y2) : interArea a b ≤ boxArea b := by
  unfold interArea boxArea
  have hw : max 0 (min a.x2 b.x2 - max a.x1 b.x1) ≤ b.x2 - b.x1 := by
    apply max_le
    · linarith
    · have h1 : min a.x2 b.x2 ≤ b.x2 := min_le_right _ _
      have h2 : b.x1 ≤ max a.x1 b.x1 := le_max_right _ _
      linarith
  have hh : max 0 (min a.y2 b.y2 - max a.y1 b.y1) ≤ b.y2 - b.y1 := by
    apply max_le
    · linarith
    · have h1 : min a.y2 b.y2 ≤ b.y2 := min_le_right _ _
      have h2 : b.y1 ≤ max a.y1 b.y1 := le_max_right _ _
      linarith
  exact mul_le_mul hw hh (le_max_left _ _) (by linarith)

/-- Claim C3 (amended): `_nms` has no explicit `area <= 0` guard, and two
zero-area boxes can drive the IoU denominator to zero so that the division
yields NaN (see the counterexample); what does hold is that whenever the two
boxes are well-formed (`x1 ≤ x2`, `y1 ≤ y2`) and at least one has positive
area, the denominator is positive, the division is well defined, and the
pair is handled deterministically. -/
theorem c3_iou_welldefined (a b : Box) (ha1 : a.x1 ≤ a.x2) (ha2 : a.y1 ≤ a.y2)
    (hb1 : b.x1 ≤ b.x2) (hb2 : b.y1 ≤ b.y2) (hpos : 0 < boxArea a) :
    0 < iouDen a b ∧ iouVal a b = some (interArea a b / iouDen a b) := by
  have hle : interArea a b ≤ boxArea b := interArea_le_boxArea a b hb1 hb2
  have hden : 0 < iouDen a b := by
    unfold iouDen
    linarith
  refine ⟨hden, ?_⟩
  unfold iouVal
  rw [if_neg (ne_of_gt hden)]

/-- Claim C3 witness: two concrete overlapping unit-area boxes have a
positive IoU denominator and a well-defined IoU. -/
theorem c3_witness :
    0 < iouDen ⟨0, 0, 2, 2⟩ ⟨1, 1, 3, 3⟩
    ∧ iouVal ⟨0, 0, 2, 2⟩ ⟨1, 1, 3, 3⟩
      = some (interArea ⟨0, 0, 2, 2⟩ ⟨1, 1, 3, 3⟩ / iouDen ⟨0, 0, 2, 2⟩ ⟨1, 1, 3, 3⟩) :=
  c3_iou_welldefined ⟨0, 0, 2, 2⟩ ⟨1, 1, 3, 3⟩ (by norm_num) (by norm_num)
    (by norm_num) (by norm_num) (by norm_num [boxArea])

/-- One candidate row as it flows through `postprocess`: the original anchor
position (`idx`, the row's index in the raw output, which fixes its position
in every filtered array since filtering preserves order), the scaled xyxy
box, the best-class confidence and the best-class id. -/
structure Cand where
  idx : ℕ
  box : Box
  conf : ℚ
  cls : ℕ
deriving DecidableEq, Repr

/-- The order `scores.argsort()[::-1]` iterates the candidates in, with
numpy's `argsort` modelled as a stable ascending sort: descending
confidence, ties by descending original position (a stable ascending sort
puts ties in ascending position order and the `[::-1]` reversal flips
them). -/
def rKey (a b : Cand) : Prop := b.conf < a.conf ∨ (a.conf = b.conf ∧ b.idx ≤ a.idx)

instance : DecidableRel rKey := fun a b => by unfold rKey; infer_instance

instance : IsTotal Cand rKey where
  total a b := by
    unfold rKey
    rcases lt_trichotomy a.conf b.conf with h | h | h
    · exact Or.inr (Or.inl h)
    · rcases le_total b.idx a.idx with hi | hi
      · exact Or.inl (Or.inr ⟨h, hi⟩)
      · exact Or.inr (Or.inr ⟨h.symm, hi⟩)
    · exact Or.inl (Or.inl h)

instance : IsTrans Cand rKey where
  trans a b c hab hbc := by
    unfold rKey at *
    rcases hab with h1 | ⟨h1, h1'⟩ <;> rcases hbc with h2 | ⟨h2, h2'⟩
    · exact Or.inl (h2.trans h1)
    · exact Or.inl (h2 ▸ h1)
    · exact Or.inl (by rw [h1]; exact h2)
    · exact Or.inr ⟨h1.trans h2, h2'.trans h1'⟩

/-- The sorted candidate sequence `_nms` iterates (the `order` array mapped
back onto the candidate rows). -/
def sortDesc (l : List Cand) : List Cand := l.insertionSort rKey

/-- Fuel-indexed greedy suppression loop of `_nms`: keep the head of the
remaining order, drop every later candidate whose IoU with it satisfies
`iou <= iou_threshold` being false (numpy keeps indices where the comparison
is true). -/
def nmsGo (t : ℚ) : ℕ → List Cand → List Cand
  | 0, _ => []
  | _ + 1, [] => []
  | fuel + 1, c :: rest =>
      c :: nmsGo t fuel (rest.filter fun d => iouLeB c.box d.box t)

/-- The `_nms` keep list over an already-sorted candidate list: the greedy
loop with enough fuel to finish. -/
def nmsRecs (t : ℚ) (l : List Cand) : List Cand := nmsGo t l.length l

theorem nmsGo_nil (t : ℚ) (f : ℕ) : nmsGo t f [] = [] := by
  cases f <;> rfl

theorem nmsGo_fuel (t : ℚ) :
    ∀ f₁ f₂ l, l.length ≤ f₁ → l.length ≤ f₂ → nmsGo t f₁ l = nmsGo t f₂ l := by
  intro f₁
  induction f₁ with
  | zero =>
    intro f₂ l h1 _
    have hl : l = [] := List.length_eq_zero.mp (Nat.le_zero.mp h1)
    subst hl
    rw [nmsGo_nil, nmsGo_nil]
  | succ a ih =>
    intro f₂ l h1 h2
    cases l with
    | nil => rw [nmsGo_nil, nmsGo_nil]
    | cons c rest =>
      cases f₂ with
      | zero => simp at h2
      | succ b =>
        show c :: nmsGo t a _ = c :: nmsGo t b _
        congr 1
        apply ih
        · calc (rest.filter _).length ≤ rest.length := List.length_filter_le _ _
            _ ≤ a := by simpa using h1
        · calc (rest.filter _).length ≤ rest.length := List.length_filter_le _ _
            _ ≤ b := by simpa using h2

theorem nmsRecs_cons (t : ℚ) (c : Cand) (rest : List Cand) :
    nmsRecs t (c :: rest)
      = c :: nmsRecs t (rest.filter fun d => iouLeB c.box d.box t) := by
  unfold nmsRecs
  show c :: nmsGo t rest.length _ = c :: nmsGo t (rest.filter _).length _
  congr 1
  exact nmsGo_fuel t _ _ _ (List.length_filter_le _ _) le_rfl

theorem nmsGo_subset (t : ℚ) :
    ∀ f l, ∀ c ∈ nmsGo t f l, c ∈ l := by
  intro f
  induction f with
  | zero => intro l c hc; simp [nmsGo] at hc
  | succ a ih =>
    intro l c hc
    cases l with
    | nil => simpa [nmsGo_nil] using hc
    | cons x rest =>
      rcases List.mem_cons.mp hc with h | h
      · exact h ▸ List.mem_cons_self x rest
      · exact List.mem_cons_of_mem x (List.mem_of_mem_filter (ih _ c h))

theorem nmsGo_pairwise (t : ℚ) :
    ∀ f l, (nmsGo t f l).Pairwise (fun a b => iouLeB a.box b.box t = true) := by
  intro f
  induction f with
  | zero => intro l; simp [nmsGo]
  | succ a ih =>
    intro l
    cases l with
    | nil => simp [nmsGo_nil]
    | cons c rest =>
      refine List.pairwise_cons.mpr ⟨?_, ih _⟩
      intro b hb
      exact (List.mem_filter.mp (nmsGo_subset t a _ b hb)).2

theorem nmsGo_keep_all (t : ℚ) :
    ∀ f l, l.length ≤ f
      → l.Pairwise (fun a b => iouLeB a.box b.box t = true)
      → nmsGo t f l = l := by
  intro f
  induction f with
  | zero =>
    intro l h1 _
    have hl : l = [] := List.length_eq_zero.mp (Nat.le_zero.mp h1)
    subst hl
    rfl
  | succ a ih =>
    intro l h1 hp
    cases l with
    | nil => exact nmsGo_nil t _
    | cons c rest =>
      obtain ⟨hc, hrest⟩ := List.pairwise_cons.mp hp
      have hfe : rest.filter (fun d => iouLeB c.box d.box t) = rest :=
        List.filter_eq_self.mpr hc
      show c :: nmsGo t a _ = c :: rest
      rw [hfe]
      congr 1
      exact ih rest (by simpa using h1) hrest

theorem iouLeB_symm (a b : Box) (t : ℚ) : iouLeB a b t = iouLeB b a t := by
  have hi : interArea a b = interArea b a := by
    unfold interArea
    rw [min_comm a.x2 b.x2, max_comm a.x1 b.x1, min_comm a.y2 b.y2,
      max_comm a.y1 b.y1]
  have hd : iouDen a b = iouDen b a := by
    unfold iouDen
    rw [hi]
    ring
  unfold iouLeB iouVal
  rw [hi, hd]

theorem nmsGo_append (t : ℚ) :
    ∀ f A B, (A ++ B).length ≤ f
      → ∃ C, nmsGo t f (A ++ B) = nmsRecs t A ++ C := by
  intro f
  induction f with
  | zero =>
    intro A B h
    have hA : A = [] := by
      cases A with
      | nil => rfl
      | cons _ _ => simp at h
    subst hA
    exact ⟨nmsGo t 0 B, by simp [nmsRecs, nmsGo_nil]⟩
  | succ a ih =>
    intro A B h
    cases A with
    | nil => exact ⟨nmsGo t (a + 1) B, by simp [nmsRecs, nmsGo_nil]⟩
    | cons c rest =>
      show ∃ C, c :: nmsGo t a ((rest ++ B).filter fun d => iouLeB c.box d.box t)
        = nmsRecs t (c :: rest) ++ C
      rw [List.filter_append]
      obtain ⟨C, hC⟩ := ih (rest.filter fun d => iouLeB c.box d.box t)
        (B.filter fun d => iouLeB c.box d.box t) (by
          have h1 := List.length_filter_le (fun d => iouLeB c.box d.box t) rest
          have h2 := List.length_filter_le (fun d => iouLeB c.box d.box t) B
          simp only [List.length_append] at h ⊢
          simp only [List.length_cons] at h
          omega)
      refine ⟨C, ?_⟩
      rw [hC, nmsRecs_cons]
      simp

theorem nmsRecs_append (t : ℚ) (A B : List Cand) :
    ∃ C, nmsRecs t (A ++ B) = nmsRecs t A ++ C :=
  nmsGo_append t (A ++ B).length A B le_rfl

theorem sortDesc_perm (l : List Cand) : (sortDesc l).Perm l :=
  List.perm_insertionSort rKey l

theorem sortDesc_sorted (l : List Cand) : (sortDesc l).Pairwise rKey :=
  List.sorted_insertionSort rKey l

/-- Two sorted permutations of each other agree when the order relation is
antisymmetric on the elements involved. -/
theorem sorted_perm_eq {α : Type*} {r : α → α → Prop} :
    ∀ {l₁ l₂ : List α}, l₁.Perm l₂ → l₁.Pairwise r → l₂.Pairwise r
      → (∀ a ∈ l₁, ∀ b ∈ l₁, r a b → r b a → a = b) → l₁ = l₂ := by
  intro l₁
  induction l₁ with
  | nil =>
    intro l₂ hp _ _ _
    exact (hp.symm.eq_nil).symm ▸ rfl
  | cons a tl ih =>
    intro l₂ hp hs₁ hs₂ hanti
    have ha : a ∈ l₂ := hp.mem_iff.mp (List.mem_cons_self a tl)
    cases l₂ with
    | nil => simp at ha
    | cons b tl' =>
      have hb : b ∈ a :: tl := hp.symm.mem_iff.mp (List.mem_cons_self b tl')
      have hab : a = b := by
        by_contra hne
        have ha' : a ∈ tl' := by
          rcases List.mem_cons.mp ha with h | h
          · exact absurd h hne
          · exact h
        have hb' : b ∈ tl := by
          rcases List.mem_cons.mp hb with h | h
          · exact absurd h.symm hne
          · exact h
        have hr1 : r a b := (List.pairwise_cons.mp hs₁).1 b hb'
        have hr2 : r b a := (List.pairwise_cons.mp hs₂).1 a ha'
        exact hne (hanti a (List.mem_cons_self a tl) b
          (List.mem_cons_of_mem a hb') hr1 hr2)
      subst hab
      have hp' : tl.Perm tl' := hp.cons_inv
      have htl := ih hp' (List.pairwise_cons.mp hs₁).2 (List.pairwise_cons.mp hs₂).2
        (fun x hx y hy hr hr' => hanti x (List.mem_cons_of_mem a hx) y
          (List.mem_cons_of_mem a hy) hr hr')
      rw [htl]

/-- Claim C7: NMS is idempotent.  For every candidate list and IoU
threshold, running `_nms` a second time over the candidates kept by the
first run (the second run re-sorting them exactly as the code does) keeps
them all; equivalently, every pair of distinct kept boxes already satisfies
`iou <= iou_threshold`, so no output box can suppress another. -/
theorem c7_nms_idempotent (l : List Cand) (t : ℚ) :
    nmsRecs t (sortDesc (nmsRecs t (sortDesc l))) = sortDesc (nmsRecs t (sortDesc l))
    ∧ (sortDesc (nmsRecs t (sortDesc l))).Perm (nmsRecs t (sortDesc l))
    ∧ (nmsRecs t (sortDesc l)).Pairwise
        (fun a b => iouLeB a.box b.box t = true) := by
  have hsym : ∀ {x y : Cand}, iouLeB x.box y.box t = true
      → iouLeB y.box x.box t = true := by
    intro x y h
    rwa [iouLeB_symm] at h
  have hpair : (nmsRecs t (sortDesc l)).Pairwise
      (fun a b => iouLeB a.box b.box t = true) := nmsGo_pairwise t _ _
  have hperm := sortDesc_perm (nmsRecs t (sortDesc l))
  have hpair2 : (sortDesc (nmsRecs t (sortDesc l))).Pairwise
      (fun a b => iouLeB a.box b.box t = true) :=
    (List.Perm.pairwise_iff hsym hperm).mpr hpair
  exact ⟨nmsGo_keep_all t _ _ le_rfl hpair2, hperm, hpair⟩

/-- What `scores.argsort()[::-1]` guarantees about the iteration order of
`_nms` regardless of tie behaviour: confidences are non-increasing.  Which
of several tied orders is produced is numpy's unspecified default
(quicksort) behaviour. -/
def confSorted (l : List Cand) : Prop := l.Pairwise (fun a b => b.conf ≤ a.conf)

/-- Two identical 10×10 boxes have IoU 1, which fails `iou <= 0.45`. -/
theorem iou_square_self :
    iouLeB ⟨0, 0, 10, 10⟩ ⟨0, 0, 10, 10⟩ (45/100) = false := by
  have hi : interArea ⟨0, 0, 10, 10⟩ ⟨0, 0, 10, 10⟩ = 100 := by
    unfold interArea
    norm_num
  have hd : iouDen ⟨0, 0, 10, 10⟩ ⟨0, 0, 10, 10⟩ = 100 := by
    unfold iouDen boxArea
    rw [hi]
    norm_num
  unfold iouLeB iouVal
  rw [hi, hd]
  norm_num

/-- Claim C5 counterexample: with two identical boxes carrying tied
confidence 0.5, both orders `[c0, c1]` and `[c1, c0]` are valid descending
iterations of the same candidate multiset (numpy's unstable `argsort` fixes
no particular one), yet greedy suppression keeps candidate 0 under the
first and candidate 1 under the second: the kept set is not determined by
boxes, confidences and threshold alone, so no stable, documented tie rule
is in force. -/
theorem c5_counterexample :
    confSorted [⟨0, ⟨0, 0, 10, 10⟩, 1/2, 0⟩, ⟨1, ⟨0, 0, 10, 10⟩, 1/2, 0⟩]
    ∧ confSorted [⟨1, ⟨0, 0, 10, 10⟩, 1/2, 0⟩, ⟨0, ⟨0, 0, 10, 10⟩, 1/2, 0⟩]
    ∧ ([⟨0, ⟨0, 0, 10, 10⟩, 1/2, 0⟩, ⟨1, ⟨0, 0, 10, 10⟩, 1/2, 0⟩] : List Cand).Perm
        [⟨1, ⟨0, 0, 10, 10⟩, 1/2, 0⟩, ⟨0, ⟨0, 0, 10, 10⟩, 1/2, 0⟩]
    ∧ nmsRecs (45/100) [⟨0, ⟨0, 0, 10, 10⟩, 1/2, 0⟩, ⟨1, ⟨0, 0, 10, 10⟩, 1/2, 0⟩]
        = [⟨0, ⟨0, 0, 10, 10⟩, 1/2, 0⟩]
    ∧ nmsRecs (45/100) [⟨1, ⟨0, 0, 10, 10⟩, 1/2, 0⟩, ⟨0, ⟨0, 0, 10, 10⟩, 1/2, 0⟩]
        = [⟨1, ⟨0, 0, 10, 10⟩, 1/2, 0⟩]
    ∧ ([⟨0, ⟨0, 0, 10, 10⟩, 1/2, 0⟩] : List Cand)
        ≠ [⟨1, ⟨0, 0, 10, 10⟩, 1/2, 0⟩] := by
  refine ⟨?_, ?_, ?_, ?_, ?_, ?_⟩
  · unfold confSorted
    simp
  · unfold confSorted
    simp
  · exact List.Perm.swap _ _ _
  · rw [nmsRecs_cons]
    simp [List.filter, iou_square_self, nmsRecs, nmsGo_nil]
  · rw [nmsRecs_cons]
    simp [List.filter, iou_square_self, nmsRecs, nmsGo_nil]
  · simp

/-- Claim C5 (amended): the greedy suppression is a pure function of the
iteration order, and when all confidences are pairwise distinct the
descending order is unique, so the kept list is independent of how the sort
breaks ties; with tied confidences, however, the kept set depends on the
unspecified `argsort` tie order (see the counterexample), so the code has
no stable documented tie rule. -/
theorem c5_nms_deterministic_distinct (l₁ l₂ : List Cand) (t : ℚ)
    (hperm : l₁.Perm l₂) (hs₁ : confSorted l₁) (hs₂ : confSorted l₂)
    (hinj : ∀ a ∈ l₁, ∀ b ∈ l₁, a.conf = b.conf → a = b) :
    nmsRecs t l₁ = nmsRecs t l₂ := by
  have hl : l₁ = l₂ := by
    apply sorted_perm_eq hperm hs₁ hs₂
    intro a ha b hb hr hr'
    exact hinj a ha b hb (le_antisymm hr' hr)
  rw [hl]

/-- Claim C5 witness: a concrete sorted two-candidate list with distinct
confidences, compared against itself. -/
theorem c5_witness :
    nmsRecs (45/100) [⟨0, ⟨0, 0, 10, 10⟩, 9/10, 0⟩, ⟨1, ⟨20, 20, 30, 30⟩, 8/10, 0⟩]
      = nmsRecs (45/100)
        [⟨0, ⟨0, 0, 10, 10⟩, 9/10, 0⟩, ⟨1, ⟨20, 20, 30, 30⟩, 8/10, 0⟩] := by
  apply c5_nms_deterministic_distinct _ _ _ (List.Perm.refl _)
  · unfold confSorted
    simp
    norm_num
  · unfold confSorted
    simp
    norm_num
  · intro a ha b hb hab
    rcases List.mem_cons.mp ha with rfl | ha' <;>
      rcases List.mem_cons.mp hb with rfl | hb'
    · rfl
    · simp only [List.mem_singleton] at hb'
      subst hb'
      norm_num at hab
    · simp only [List.mem_singleton] at ha'
      subst ha'
      norm_num at hab
    · simp only [List.mem_singleton] at ha' hb'
      rw [ha', hb']

/-- `np.argmax` over a score list: index of the first maximal element
(strict improvement moves the best index, ties keep the earlier one). -/
def argmaxAux : List ℚ → ℕ → ℕ → ℚ → ℕ
  | [], _, bi, _ => bi
  | a :: rest, pos, bi, bv =>
      if bv < a then argmaxAux rest (pos + 1) pos a
      else argmaxAux rest (pos + 1) bi bv

/-- `class_ids = np.argmax(scores, axis=1)` for one row. -/
def argmaxL : List ℚ → ℕ
  | [] => 0
  | a :: rest => argmaxAux rest 1 0 a

/-- `class_scores = np.max(scores, axis=1)` for one row. -/
def maxL : List ℚ → ℚ
  | [] => 0
  | a :: rest => rest.foldl max a

/-- One raw anchor row of `postprocess` after the transpose: position in
the output tensor, centre-form geometry (`boxes = predictions[:, :4]`) and
the best class score/id (`np.max` / `np.argmax` over `predictions[:, 4:]`). -/
structure RawCand where
  idx : ℕ
  cx : ℚ
  cy : ℚ
  w : ℚ
  h : ℚ
  conf : ℚ
  cls : ℕ
deriving DecidableEq, Repr

/-- Decode one `(position, row)` pair: geometry from the first four
entries, confidence and class from the remaining class scores. -/
def decodeRow (p : ℕ × List ℚ) : RawCand :=
  { idx := p.1, cx := p.2.getD 0 0, cy := p.2.getD 1 0, w := p.2.getD 2 0,
    h := p.2.getD 3 0, conf := maxL (p.2.drop 4), cls := argmaxL (p.2.drop 4) }

/-- All anchor rows of the raw output tensor, in tensor order. -/
def decode (preds : List (List ℚ)) : List RawCand := preds.enum.map decodeRow

/-- `mask = class_scores > conf_threshold` row filtering (strict). -/
def confFilter (t : ℚ) (l : List RawCand) : List RawCand :=
  l.filter fun c => decide (t < c.conf)

/-- Convert a surviving row to corner form (`x1 = cx - w/2`, …) and rescale
each coordinate with `_scale_boxes`, keeping position, confidence and
class. -/
def toScaled (h w H W : ℕ) (c : RawCand) : Cand :=
  { idx := c.idx,
    box := ⟨unscaleX h w H W (c.cx - c.w / 2), unscaleY h w H W (c.cy - c.h / 2),
            unscaleX h w H W (c.cx + c.w / 2), unscaleY h w H W (c.cy + c.h / 2)⟩,
    conf := c.conf, cls := c.cls }

/-- One output row `[x1, y1, x2, y2, conf, cls]` of `postprocess`. -/
def toDet (c : Cand) : Box × ℚ × ℕ := (c.box, c.conf, c.cls)

/-- `YOLO_ONNX.postprocess`: decode, confidence-filter (with the early
empty return), convert and rescale, sort by descending confidence, greedily
suppress, and stack the kept rows. -/
def postprocess (preds : List (List ℚ)) (h w H W : ℕ) (tconf tiou : ℚ) :
    List (Box × ℚ × ℕ) :=
  if confFilter tconf (decode preds) = [] then []
  else
    (nmsRecs tiou
      (sortDesc ((confFilter tconf (decode preds)).map (toScaled h w H W)))).map toDet

theorem postprocess_eq (preds : List (List ℚ)) (h w H W : ℕ) (tconf tiou : ℚ) :
    postprocess preds h w H W tconf tiou
      = (nmsRecs tiou
          (sortDesc ((confFilter tconf (decode preds)).map (toScaled h w H W)))).map
            toDet := by
  unfold postprocess
  by_cases hc : confFilter tconf (decode preds) = []
  · rw [if_pos hc, hc]
    rfl
  · rw [if_neg hc]

/-- Any iteration order our sort model produces has non-increasing
confidences. -/
theorem sortDesc_confSorted (l : List Cand) : confSorted (sortDesc l) := by
  refine List.Pairwise.imp (fun hr => ?_) (sortDesc_sorted l)
  rcases hr with h | ⟨h, _⟩
  · exact le_of_lt h
  · exact h.symm.le

/-- Raising the threshold filters the already-filtered, scaled candidate
list (filters compose, and rescaling does not touch confidences). -/
theorem mapScaled_filter (preds : List (List ℚ)) (h w H W : ℕ) (t₁ t₂ : ℚ)
    (ht : t₁ < t₂) :
    (confFilter t₂ (decode preds)).map (toScaled h w H W)
      = ((confFilter t₁ (decode preds)).map (toScaled h w H W)).filter
          (fun c => decide (t₂ < c.conf)) := by
  have hff : confFilter t₂ (decode preds)
      = (confFilter t₁ (decode preds)).filter fun c => decide (t₂ < c.conf) := by
    unfold confFilter
    rw [List.filter_filter]
    apply List.filter_congr
    intro x _
    by_cases hx : t₂ < x.conf
    · simp [hx, lt_trans ht hx]
    · simp [hx]
  rw [hff, List.filter_map]
  congr 1

/-- When the decoded rows have pairwise-distinct confidences, confidence
identifies the filtered, scaled candidates. -/
theorem scaled_conf_inj (preds : List (List ℚ)) (t : ℚ) (h w H W : ℕ)
    (hinj : ∀ a ∈ decode preds, ∀ b ∈ decode preds, a.conf = b.conf → a = b) :
    ∀ a ∈ (confFilter t (decode preds)).map (toScaled h w H W),
    ∀ b ∈ (confFilter t (decode preds)).map (toScaled h w H W),
      a.conf = b.conf → a = b := by
  intro a ha b hb hab
  obtain ⟨ra, hra, rfl⟩ := List.mem_map.mp ha
  obtain ⟨rb, hrb, rfl⟩ := List.mem_map.mp hb
  have hra' : ra ∈ decode preds := List.mem_of_mem_filter hra
  have hrb' : rb ∈ decode preds := List.mem_of_mem_filter hrb
  have hr : ra = rb := hinj ra hra' rb hrb' hab
  rw [hr]

/-- Claim C6 (amended): when the decoded candidates carry pairwise-distinct
confidences, the detection set at `t₂` is a subset of the set at `t₁ < t₂`
for every valid descending iteration order of each run — the descending
order is then unique, so numpy's unspecified `argsort` tie behaviour cannot
matter — and in particular for the pipeline as embedded.  With tied
confidences the subset property can fail, because the two runs sort
different arrays and their unspecified tie orders need not agree (see the
counterexample). -/
theorem c6_monotone_distinct (preds : List (List ℚ)) (h w H W : ℕ)
    (t₁ t₂ tiou : ℚ) (ht : t₁ < t₂)
    (hinj : ∀ a ∈ decode preds, ∀ b ∈ decode preds, a.conf = b.conf → a = b) :
    (∀ o₁ o₂ : List Cand,
      o₁.Perm ((confFilter t₁ (decode preds)).map (toScaled h w H W))
      → confSorted o₁
      → o₂.Perm ((confFilter t₂ (decode preds)).map (toScaled h w H W))
      → confSorted o₂
      → ∀ d ∈ (nmsRecs tiou o₂).map toDet, d ∈ (nmsRecs tiou o₁).map toDet)
    ∧ ∀ d ∈ postprocess preds h w H W t₂ tiou,
        d ∈ postprocess preds h w H W t₁ tiou := by
  have hmain : ∀ o₁ o₂ : List Cand,
      o₁.Perm ((confFilter t₁ (decode preds)).map (toScaled h w H W))
      → confSorted o₁
      → o₂.Perm ((confFilter t₂ (decode preds)).map (toScaled h w H W))
      → confSorted o₂
      → ∀ d ∈ (nmsRecs tiou o₂).map toDet, d ∈ (nmsRecs tiou o₁).map toDet := by
    intro o₁ o₂ ho₁ hs₁ ho₂ hs₂ d hd
    rw [mapScaled_filter preds h w H W t₁ t₂ ht] at ho₂
    have hsplit : o₁ = o₂ ++ sortDesc
        (((confFilter t₁ (decode preds)).map (toScaled h w H W)).filter
          (fun c => !decide (t₂ < c.conf))) := by
      apply sorted_perm_eq (r := fun a b : Cand => b.conf ≤ a.conf)
      · refine ho₁.trans (List.Perm.symm ?_)
        exact (List.Perm.append ho₂ (sortDesc_perm _)).trans
          (List.filter_append_perm _ _)
      · exact hs₁
      · refine List.pairwise_append.mpr ⟨hs₂, sortDesc_confSorted _, ?_⟩
        intro a ha b hb
        have ha' := List.mem_filter.mp (ho₂.subset ha)
        have hb' := List.mem_filter.mp ((sortDesc_perm _).subset hb)
        have hpa : t₂ < a.conf := of_decide_eq_true ha'.2
        have hpb : ¬ t₂ < b.conf := by
          have := hb'.2
          simp only [Bool.not_eq_eq_eq_not, Bool.not_true] at this
          exact of_decide_eq_false this
        exact le_of_lt (lt_of_le_of_lt (le_of_not_lt hpb) hpa)
      · intro a ha b hb hr hr'
        exact scaled_conf_inj preds t₁ h w H W hinj a (ho₁.subset ha) b
          (ho₁.subset hb) (le_antisymm hr' hr)
    obtain ⟨C, hC⟩ := nmsRecs_append tiou o₂
      (sortDesc (((confFilter t₁ (decode preds)).map (toScaled h w H W)).filter
        (fun c => !decide (t₂ < c.conf))))
    rw [hsplit, hC, List.map_append]
    exact List.mem_append_left _ hd
  refine ⟨hmain, ?_⟩
  intro d hd
  rw [postprocess_eq] at hd ⊢
  exact hmain (sortDesc _) (sortDesc _) (sortDesc_perm _) (sortDesc_confSorted _)
    (sortDesc_perm _) (sortDesc_confSorted _) d hd

theorem gain_640_640 : gainOf 640 640 640 640 = 1 := by
  unfold gainOf
  norm_num

theorem decode_single :
    decode [[10, 10, 4, 4, 9/10]] = [⟨0, 10, 10, 4, 4, 9/10, 0⟩] := rfl

theorem filter_single :
    confFilter (1/2) [⟨0, 10, 10, 4, 4, 9/10, 0⟩] = [⟨0, 10, 10, 4, 4, 9/10, 0⟩] := by
  unfold confFilter
  simp only [List.filter_cons, List.filter_nil, decide_eq_true_eq]
  rw [if_pos (by norm_num)]

theorem scaled_single :
    toScaled 640 640 640 640 ⟨0, 10, 10, 4, 4, 9/10, 0⟩
      = ⟨0, ⟨8, 8, 12, 12⟩, 9/10, 0⟩ := by
  have h1 : unscaleX 640 640 640 640 ((10 : ℚ) - 4 / 2) = 8 := by
    unfold unscaleX padXOf
    rw [gain_640_640]
    norm_num [max_def, min_def]
  have h2 : unscaleY 640 640 640 640 ((10 : ℚ) - 4 / 2) = 8 := by
    unfold unscaleY padYOf
    rw [gain_640_640]
    norm_num [max_def, min_def]
  have h3 : unscaleX 640 640 640 640 ((10 : ℚ) + 4 / 2) = 12 := by
    unfold unscaleX padXOf
    rw [gain_640_640]
    norm_num [max_def, min_def]
  have h4 : unscaleY 640 640 640 640 ((10 : ℚ) + 4 / 2) = 12 := by
    unfold unscaleY padYOf
    rw [gain_640_640]
    norm_num [max_def, min_def]
  unfold toScaled
  rw [show (⟨0, 10, 10, 4, 4, 9/10, 0⟩ : RawCand).cx = (10 : ℚ) from rfl]
  simp only [h1, h2, h3, h4]

theorem post_eval_half :
    postprocess [[10, 10, 4, 4, 9/10]] 640 640 640 640 (1/2) (45/100)
      = [(⟨8, 8, 12, 12⟩, (9/10 : ℚ), 0)] := by
  rw [postprocess_eq, decode_single, filter_single]
  simp only [List.map_cons, List.map_nil]
  rw [scaled_single]
  rfl

/-- Claim C6 witness: for a tensor with one candidate (so confidences are
trivially pairwise distinct), the detection produced at confidence
threshold 0.5 is also produced at the lower threshold 0.2. -/
theorem c6_witness :
    ((⟨8, 8, 12, 12⟩, (9/10 : ℚ), 0) : Box × ℚ × ℕ)
      ∈ postprocess [[10, 10, 4, 4, 9/10]] 640 640 640 640 (1/5) (45/100) :=
  (c6_monotone_distinct [[10, 10, 4, 4, 9/10]] 640 640 640 640 (1/5) (1/2)
    (45/100) (by norm_num)
    (by
      intro a ha b hb _
      rw [decode_single] at ha hb
      simp only [List.mem_singleton] at ha hb
      rw [ha, hb])).2 _
    (by rw [post_eval_half]; exact List.mem_singleton_self _)

theorem unscaleX_id640 (x : ℚ) (h0 : 0 ≤ x) (hw : x ≤ 640) :
    unscaleX 640 640 640 640 x = x := by
  unfold unscaleX padXOf
  rw [gain_640_640]
  have he : (x - (((640 : ℕ) : ℚ) - ((640 : ℕ) : ℚ) * 1) / 2) / 1 = x := by
    push_cast
    ring
  rw [he, max_eq_left h0, min_eq_left (by exact_mod_cast hw)]

theorem unscaleY_id640 (y : ℚ) (h0 : 0 ≤ y) (hh : y ≤ 640) :
    unscaleY 640 640 640 640 y = y := by
  unfold unscaleY padYOf
  rw [gain_640_640]
  have he : (y - (((640 : ℕ) : ℚ) - ((640 : ℕ) : ℚ) * 1) / 2) / 1 = y := by
    push_cast
    ring
  rw [he, max_eq_left h0, min_eq_left (by exact_mod_cast hh)]

theorem decode_three :
    decode [[5, 5, 10, 10, 1/2], [5, 11/2, 10, 11, 1/2], [25, 25, 10, 10, 1/4]]
      = [⟨0, 5, 5, 10, 10, 1/2, 0⟩, ⟨1, 5, 11/2, 10, 11, 1/2, 0⟩,
         ⟨2, 25, 25, 10, 10, 1/4, 0⟩] := rfl

theorem filter_three_high :
    confFilter (2/5) [⟨0, 5, 5, 10, 10, 1/2, 0⟩, ⟨1, 5, 11/2, 10, 11, 1/2, 0⟩,
        ⟨2, 25, 25, 10, 10, 1/4, 0⟩]
      = [⟨0, 5, 5, 10, 10, 1/2, 0⟩, ⟨1, 5, 11/2, 10, 11, 1/2, 0⟩] := by
  unfold confFilter
  simp only [List.filter_cons, List.filter_nil, decide_eq_true_eq]
  rw [if_pos (by norm_num), if_pos (by norm_num), if_neg (by norm_num)]

theorem filter_three_low :
    confFilter (1/10) [⟨0, 5, 5, 10, 10, 1/2, 0⟩, ⟨1, 5, 11/2, 10, 11, 1/2, 0⟩,
        ⟨2, 25, 25, 10, 10, 1/4, 0⟩]
      = [⟨0, 5, 5, 10, 10, 1/2, 0⟩, ⟨1, 5, 11/2, 10, 11, 1/2, 0⟩,
         ⟨2, 25, 25, 10, 10, 1/4, 0⟩] := by
  unfold confFilter
  simp only [List.filter_cons, List.filter_nil, decide_eq_true_eq]
  rw [if_pos (by norm_num), if_pos (by norm_num), if_pos (by norm_num)]

theorem scaled_rowX :
    toScaled 640 640 640 640 ⟨0, 5, 5, 10, 10, 1/2, 0⟩
      = ⟨0, ⟨0, 0, 10, 10⟩, 1/2, 0⟩ := by
  have h1 : unscaleX 640 640 640 640 ((5 : ℚ) - 10 / 2) = 0 :=
    (unscaleX_id640 _ (by norm_num) (by norm_num)).trans (by norm_num)
  have h2 : unscaleY 640 640 640 640 ((5 : ℚ) - 10 / 2) = 0 :=
    (unscaleY_id640 _ (by norm_num) (by norm_num)).trans (by norm_num)
  have h3 : unscaleX 640 640 640 640 ((5 : ℚ) + 10 / 2) = 10 :=
    (unscaleX_id640 _ (by norm_num) (by norm_num)).trans (by norm_num)
  have h4 : unscaleY 640 640 640 640 ((5 : ℚ) + 10 / 2) = 10 :=
    (unscaleY_id640 _ (by norm_num) (by norm_num)).trans (by norm_num)
  unfold toScaled
  simp only [h1, h2, h3, h4]

theorem scaled_rowY :
    toScaled 640 640 640 640 ⟨1, 5, 11/2, 10, 11, 1/2, 0⟩
      = ⟨1, ⟨0, 0, 10, 11⟩, 1/2, 0⟩ := by
  have h1 : unscaleX 640 640 640 640 ((5 : ℚ) - 10 / 2) = 0 :=
    (unscaleX_id640 _ (by norm_num) (by norm_num)).trans (by norm_num)
  have h2 : unscaleY 640 640 640 640 ((11 : ℚ) / 2 - 11 / 2) = 0 :=
    (unscaleY_id640 _ (by norm_num) (by norm_num)).trans (by norm_num)
  have h3 : unscaleX 640 640 640 640 ((5 : ℚ) + 10 / 2) = 10 :=
    (unscaleX_id640 _ (by norm_num) (by norm_num)).trans (by norm_num)
  have h4 : unscaleY 640 640 640 640 ((11 : ℚ) / 2 + 11 / 2) = 11 :=
    (unscaleY_id640 _ (by norm_num) (by norm_num)).trans (by norm_num)
  unfold toScaled
  simp only [h1, h2, h3, h4]

theorem scaled_rowW :
    toScaled 640 640 640 640 ⟨2, 25, 25, 10, 10, 1/4, 0⟩
      = ⟨2, ⟨20, 20, 30, 30⟩, 1/4, 0⟩ := by
  have h1 : unscaleX 640 640 640 640 ((25 : ℚ) - 10 / 2) = 20 :=
    (unscaleX_id640 _ (by norm_num) (by norm_num)).trans (by norm_num)
  have h2 : unscaleY 640 640 640 640 ((25 : ℚ) - 10 / 2) = 20 :=
    (unscaleY_id640 _ (by norm_num) (by norm_num)).trans (by norm_num)
  have h3 : unscaleX 640 640 640 640 ((25 : ℚ) + 10 / 2) = 30 :=
    (unscaleX_id640 _ (by norm_num) (by norm_num)).trans (by norm_num)
  have h4 : unscaleY 640 640 640 640 ((25 : ℚ) + 10 / 2) = 30 :=
    (unscaleY_id640 _ (by norm_num) (by norm_num)).trans (by norm_num)
  unfold toScaled
  simp only [h1, h2, h3, h4]

theorem cands_high :
    (confFilter (2/5) (decode [[5, 5, 10, 10, 1/2], [5, 11/2, 10, 11, 1/2],
        [25, 25, 10, 10, 1/4]])).map (toScaled 640 640 640 640)
      = [⟨0, ⟨0, 0, 10, 10⟩, 1/2, 0⟩, ⟨1, ⟨0, 0, 10, 11⟩, 1/2, 0⟩] := by
  rw [decode_three, filter_three_high]
  simp only [List.map_cons, List.map_nil]
  rw [scaled_rowX, scaled_rowY]

theorem cands_low :
    (confFilter (1/10) (decode [[5, 5, 10, 10, 1/2], [5, 11/2, 10, 11, 1/2],
        [25, 25, 10, 10, 1/4]])).map (toScaled 640 640 640 640)
      = [⟨0, ⟨0, 0, 10, 10⟩, 1/2, 0⟩, ⟨1, ⟨0, 0, 10, 11⟩, 1/2, 0⟩,
         ⟨2, ⟨20, 20, 30, 30⟩, 1/4, 0⟩] := by
  rw [decode_three, filter_three_low]
  simp only [List.map_cons, List.map_nil]
  rw [scaled_rowX, scaled_rowY, scaled_rowW]

/-- The two heavily-overlapping tied boxes: IoU = 100/110 > 0.45. -/
theorem iou_XY :
    iouLeB ⟨0, 0, 10, 10⟩ ⟨0, 0, 10, 11⟩ (45/100) = false := by
  have hi : interArea ⟨0, 0, 10, 10⟩ ⟨0, 0, 10, 11⟩ = 100 := by
    unfold interArea
    norm_num [min_def, max_def]
  have hd : iouDen ⟨0, 0, 10, 10⟩ ⟨0, 0, 10, 11⟩ = 110 := by
    unfold iouDen boxArea
    rw [hi]
    norm_num
  unfold iouLeB iouVal
  rw [hi, hd]
  norm_num

/-- The tied box and the far-away low-confidence box: IoU = 0 ≤ 0.45. -/
theorem iou_YW :
    iouLeB ⟨0, 0, 10, 11⟩ ⟨20, 20, 30, 30⟩ (45/100) = true := by
  have hi : interArea ⟨0, 0, 10, 11⟩ ⟨20, 20, 30, 30⟩ = 0 := by
    unfold interArea
    norm_num [min_def, max_def]
  have hd : iouDen ⟨0, 0, 10, 11⟩ ⟨20, 20, 30, 30⟩ = 210 := by
    unfold iouDen boxArea
    rw [hi]
    norm_num
  unfold iouLeB iouVal
  rw [hi, hd]
  norm_num

/-- Claim C6 counterexample: thresholds `t₁ = 1/10 < t₂ = 2/5` and a tensor
with two heavily-overlapping candidates tied at confidence 1/2 plus a
disjoint candidate at 1/4.  The code's candidate array at `t₂` is
`[cX, cY]` and at `t₁` it is `[cX, cY, cW]`; `[cX, cY]` and `[cY, cX, cW]`
are both valid descending iterations of those arrays (the tie order of
numpy's default `argsort` is unspecified, and the two runs sort different
arrays).  The `t₂` run keeps the box `(0,0,10,10)`, but the `t₁` run's
output contains only `(0,0,10,11)` and `(20,20,30,30)` — the claimed subset
relation between the detection sets fails. -/
theorem c6_counterexample :
    (1/10 : ℚ) < 2/5
    ∧ (confFilter (2/5) (decode [[5, 5, 10, 10, 1/2], [5, 11/2, 10, 11, 1/2],
        [25, 25, 10, 10, 1/4]])).map (toScaled 640 640 640 640)
      = [⟨0, ⟨0, 0, 10, 10⟩, 1/2, 0⟩, ⟨1, ⟨0, 0, 10, 11⟩, 1/2, 0⟩]
    ∧ (confFilter (1/10) (decode [[5, 5, 10, 10, 1/2], [5, 11/2, 10, 11, 1/2],
        [25, 25, 10, 10, 1/4]])).map (toScaled 640 640 640 640)
      = [⟨0, ⟨0, 0, 10, 10⟩, 1/2, 0⟩, ⟨1, ⟨0, 0, 10, 11⟩, 1/2, 0⟩,
         ⟨2, ⟨20, 20, 30, 30⟩, 1/4, 0⟩]
    ∧ confSorted [⟨0, ⟨0, 0, 10, 10⟩, 1/2, 0⟩, ⟨1, ⟨0, 0, 10, 11⟩, 1/2, 0⟩]
    ∧ confSorted [⟨1, ⟨0, 0, 10, 11⟩, 1/2, 0⟩, ⟨0, ⟨0, 0, 10, 10⟩, 1/2, 0⟩,
        ⟨2, ⟨20, 20, 30, 30⟩, 1/4, 0⟩]
    ∧ ([⟨1, ⟨0, 0, 10, 11⟩, 1/2, 0⟩, ⟨0, ⟨0, 0, 10, 10⟩, 1/2, 0⟩,
        ⟨2, ⟨20, 20, 30, 30⟩, 1/4, 0⟩] : List Cand).Perm
        [⟨0, ⟨0, 0, 10, 10⟩, 1/2, 0⟩, ⟨1, ⟨0, 0, 10, 11⟩, 1/2, 0⟩,
         ⟨2, ⟨20, 20, 30, 30⟩, 1/4, 0⟩]
    ∧ (nmsRecs (45/100) [⟨0, ⟨0, 0, 10, 10⟩, 1/2, 0⟩,
        ⟨1, ⟨0, 0, 10, 11⟩, 1/2, 0⟩]).map toDet = [(⟨0, 0, 10, 10⟩, 1/2, 0)]
    ∧ (nmsRecs (45/100) [⟨1, ⟨0, 0, 10, 11⟩, 1/2, 0⟩,
        ⟨0, ⟨0, 0, 10, 10⟩, 1/2, 0⟩, ⟨2, ⟨20, 20, 30, 30⟩, 1/4, 0⟩]).map toDet
      = [(⟨0, 0, 10, 11⟩, 1/2, 0), (⟨20, 20, 30, 30⟩, 1/4, 0)]
    ∧ ((⟨0, 0, 10, 10⟩, (1/2 : ℚ), 0) : Box × ℚ × ℕ)
        ∉ [((⟨0, 0, 10, 11⟩, (1/2 : ℚ), 0) : Box × ℚ × ℕ),
           (⟨20, 20, 30, 30⟩, (1/4 : ℚ), 0)] := by
  have hYX : iouLeB ⟨0, 0, 10, 11⟩ ⟨0, 0, 10, 10⟩ (45/100) = false := by
    rw [iouLeB_symm]
    exact iou_XY
  refine ⟨by norm_num, cands_high, cands_low, ?_, ?_, ?_, ?_, ?_, ?_⟩
  · unfold confSorted
    simp
  · unfold confSorted
    refine List.pairwise_cons.mpr ⟨?_, List.pairwise_cons.mpr ⟨?_, ?_⟩⟩
    · intro b hb
      rcases List.mem_cons.mp hb with rfl | hb'
      · norm_num
      · simp only [List.mem_singleton] at hb'
        subst hb'
        norm_num
    · intro b hb
      simp only [List.mem_singleton] at hb
      subst hb
      norm_num
    · simp
  · exact List.Perm.swap _ _ _
  · rw [nmsRecs_cons]
    simp [List.filter, iou_XY, nmsRecs, nmsGo_nil, toDet]
  · rw [nmsRecs_cons]
    simp [List.filter, hYX, iou_YW, nmsRecs, nmsGo, nmsGo_nil, toDet]
  · intro hmem
    rcases List.mem_cons.mp hmem with hcase | hcase
    · simp only [Prod.mk.injEq, Box.mk.injEq] at hcase
      norm_num at hcase
    · simp only [List.mem_singleton, Prod.mk.injEq, Box.mk.injEq] at hcase
      norm_num at hcase

/-- The fixed 80-class COCO id→name table of `YOLO_ONNX.COCO_NAMES`. -/
def COCO_NAMES : List (ℕ × String) := [
  (0, "person"), (1, "bicycle"), (2, "car"), (3, "motorcycle"), (4, "airplane"),
  (5, "bus"), (6, "train"), (7, "truck"), (8, "boat"), (9, "traffic light"),
  (10, "fire hydrant"), (11, "stop sign"), (12, "parking meter"), (13, "bench"),
  (14, "bird"), (15, "cat"), (16, "dog"), (17, "horse"), (18, "sheep"),
  (19, "cow"), (20, "elephant"), (21, "bear"), (22, "zebra"), (23, "giraffe"),
  (24, "backpack"), (25, "umbrella"), (26, "handbag"), (27, "tie"),
  (28, "suitcase"), (29, "frisbee"), (30, "skis"), (31, "snowboard"),
  (32, "sports ball"), (33, "kite"), (34, "baseball bat"), (35, "baseball glove"),
  (36, "skateboard"), (37, "surfboard"), (38, "tennis racket"), (39, "bottle"),
  (40, "wine glass"), (41, "cup"), (42, "fork"), (43, "knife"), (44, "spoon"),
  (45, "bowl"), (46, "banana"), (47, "apple"), (48, "sandwich"), (49, "orange"),
  (50, "broccoli"), (51, "carrot"), (52, "hot dog"), (53, "pizza"),
  (54, "donut"), (55, "cake"), (56, "chair"), (57, "couch"),
  (58, "potted plant"), (59, "bed"), (60, "dining table"), (61, "toilet"),
  (62, "tv"), (63, "laptop"), (64, "mouse"), (65, "remote"), (66, "keyboard"),
  (67, "cell phone"), (68, "microwave"), (69, "oven"), (70, "toaster"),
  (71, "sink"), (72, "refrigerator"), (73, "book"), (74, "clock"),
  (75, "vase"), (76, "scissors"), (77, "teddy bear"), (78, "hair drier"),
  (79, "toothbrush")]

/-- The class-name step of the assembler in
`count_vehicles_timeseries_simple`:
`cls_name = names.get(int(cls_id), str(cls_id))` — a `dict.get` with the
stringified id as the default. -/
def clsNameOf (names : List (ℕ × String)) (i : ℕ) : String :=
  match names.lookup i with
  | some s => s
  | none => toString i

/-- The class-name step of the Lambda handler assembler:
`cls_name = model.names[cls_id]` — a plain dict subscript, which raises
`KeyError` for an id outside the table (caught by the handler's blanket
`except`, which turns it into a 500 response). -/
def handlerClsName (names : List (ℕ × String)) (i : ℕ) : Except String String :=
  match names.lookup i with
  | some s => .ok s
  | none => .error ("KeyError: " ++ toString i)

/-- Claim C1 counterexample: class id 99 is outside the 80-entry COCO
table, yet the batch assembler does not fail — it silently produces exactly
the stringified id `"99"` as the class name. -/
theorem c1_counterexample :
    COCO_NAMES.lookup 99 = none ∧ clsNameOf COCO_NAMES 99 = "99" := by
  constructor <;> rfl

/-- Claim C1 (amended): only the Lambda handler assembler rejects an
unknown class id (its dict subscript raises `KeyError`, answered as a 500
error); the batch counting assembler in `count_vehicles_timeseries_simple`
instead silently maps any unknown id to the stringified id via
`names.get(int(cls_id), str(cls_id))` and keeps going. -/
theorem c1_unknown_class (names : List (ℕ × String)) (i : ℕ)
    (hnone : names.lookup i = none) :
    clsNameOf names i = toString i
    ∧ handlerClsName names i = .error ("KeyError: " ++ toString i) := by
  unfold clsNameOf handlerClsName
  rw [hnone]
  exact ⟨rfl, rfl⟩

/-- Claim C1 witness: the amended behaviour at the concrete unknown id 99. -/
theorem c1_witness :
    clsNameOf COCO_NAMES 99 = toString (99 : ℕ)
    ∧ handlerClsName COCO_NAMES 99 = .error ("KeyError: " ++ toString (99 : ℕ)) :=
  c1_unknown_class COCO_NAMES 99 rfl

/-- Substring containment, modelling Python's `in` on strings. -/
def strHas (pat s : String) : Bool := decide (pat.toList <:+: s.toList)

/-- `is_vehicle_label` from `run_func.py`: lowercase the name, then test the
three substring alternatives. -/
def is_vehicle_label (name : String) : Bool :=
  strHas "small-vehicle" name.toLower || strHas "large-vehicle" name.toLower
    || strHas "vehicle" name.toLower

/-- The environment outcome for one batch item of
`count_vehicles_timeseries_simple`: the image path does not exist
(`raise FileNotFoundError`), `cv2.imread` returns `None`
(`raise RuntimeError`), or the image is read and the model returns the
listed `(label, confidence)` detections. -/
inductive ItemSrc where
  | missing
  | unreadable
  | ok (dets : List (String × ℚ))
deriving DecidableEq

/-- The per-image vehicle count of the loop body: detections whose label
passes `is_vehicle_label`. -/
def countVehicles (dets : List (String × ℚ)) : ℕ :=
  (dets.filter fun p => is_vehicle_label p.1).length

/-- The `for img_path, date in zip(image_paths, dates)` loop: the zip stops
at the shorter list; a missing or unreadable item raises, which abandons
the whole call (no results list is returned at all); otherwise the item
appends its `(date, count)` result. -/
def runItems : List ItemSrc → List String → Except String (List (String × ℕ))
  | [], _ => .ok []
  | _ :: _, [] => .ok []
  | ItemSrc.missing :: _, _ :: _ => .error "FileNotFoundError"
  | ItemSrc.unreadable :: _, _ :: _ => .error "RuntimeError: could not read image"
  | ItemSrc.ok dets :: rest, date :: ds =>
      match runItems rest ds with
      | .error e => .error e
      | .ok tail => .ok ((date, countVehicles dets) :: tail)

/-- `count_vehicles_timeseries_simple`: the length precondition check
(`raise ValueError`), then the sequential loop. -/
def count_vehicles_timeseries_simple (items : List ItemSrc)
    (dates : List String) : Except String (List (String × ℕ)) :=
  if items.length ≠ dates.length then
    .error "image_paths and dates must have same length"
  else runItems items dates

/-- The error a batch item raises when the loop reaches it: a missing path
raises `FileNotFoundError` (`run_func.py:58-59`), unreadable image bytes
raise `RuntimeError` (`run_func.py:61-63`), a readable item raises
nothing. -/
def itemError : ItemSrc → Option String
  | ItemSrc.missing => some "FileNotFoundError"
  | ItemSrc.unreadable => some "RuntimeError: could not read image"
  | ItemSrc.ok _ => none

theorem runItems_aborts (post : List ItemSrc) (bad : ItemSrc) (e : String)
    (hbad : itemError bad = some e) :
    ∀ (pre : List ItemSrc) (dates : List String), pre.length < dates.length
      → (∀ x ∈ pre, ∃ d, x = ItemSrc.ok d)
      → runItems (pre ++ bad :: post) dates = .error e := by
  intro pre
  induction pre with
  | nil =>
    intro dates hlen _
    cases dates with
    | nil => simp at hlen
    | cons d ds =>
      cases bad with
      | missing =>
        simp only [itemError, Option.some.injEq] at hbad
        subst hbad
        rfl
      | unreadable =>
        simp only [itemError, Option.some.injEq] at hbad
        subst hbad
        rfl
      | ok dets => simp [itemError] at hbad
  | cons x rest ih =>
    intro dates hlen hok
    obtain ⟨dts, hx⟩ := hok x (List.mem_cons_self x rest)
    subst hx
    cases dates with
    | nil => simp at hlen
    | cons d ds =>
      have htail : runItems (rest ++ bad :: post) ds = .error e :=
        ih ds (by simp only [List.length_cons] at hlen ⊢; omega)
          (fun y hy => hok y (List.mem_cons_of_mem _ hy))
      simp only [List.cons_append, runItems, List.append_eq, htail]

/-- Claim C2 counterexample: a three-item batch whose second item fails —
once with a missing file, once with unreadable image bytes.  In both cases
the whole call returns the raised error: the third item is never processed
and no per-item results (not even for the first, successful item) are
returned, contradicting record-and-continue. -/
theorem c2_counterexample :
    count_vehicles_timeseries_simple
      [ItemSrc.ok [("car", 9/10)], ItemSrc.missing, ItemSrc.ok []]
      ["2025-11-07", "2025-11-08", "2025-11-09"]
      = .error "FileNotFoundError"
    ∧ count_vehicles_timeseries_simple
        [ItemSrc.ok [("car", 9/10)], ItemSrc.unreadable, ItemSrc.ok []]
        ["2025-11-07", "2025-11-08", "2025-11-09"]
        = .error "RuntimeError: could not read image" := ⟨rfl, rfl⟩

/-- Claim C2 (amended): a decode/IO failure of one item — a missing file
(`FileNotFoundError`) just as an unreadable image (`RuntimeError`) — aborts
the whole batch: whenever the items before the first failing one are all
readable, `count_vehicles_timeseries_simple` raises that item's error, and
no results for any item — in particular none after the failing one — are
produced. -/
theorem c2_batch_aborts (pre post : List ItemSrc) (bad : ItemSrc) (e : String)
    (dates : List String) (hbad : itemError bad = some e)
    (hlen : (pre ++ bad :: post).length = dates.length)
    (hok : ∀ x ∈ pre, ∃ d, x = ItemSrc.ok d) :
    count_vehicles_timeseries_simple (pre ++ bad :: post) dates = .error e := by
  unfold count_vehicles_timeseries_simple
  rw [if_neg (by simp [hlen])]
  apply runItems_aborts post bad e hbad
  · simp only [List.length_append, List.length_cons] at hlen
    omega
  · exact hok

/-- Claim C2 witness: the amended abort behaviour at a concrete two-item
batch whose second item's image bytes are unreadable. -/
theorem c2_witness :
    count_vehicles_timeseries_simple
      [ItemSrc.ok [("truck", 1/2)], ItemSrc.unreadable] ["a", "b"]
      = .error "RuntimeError: could not read image" :=
  c2_batch_aborts [ItemSrc.ok [("truck", 1/2)]] [] ItemSrc.unreadable
    "RuntimeError: could not read image" ["a", "b"] rfl rfl
    (fun x hx => ⟨[("truck", 1/2)], by simpa using hx⟩)

/-- Python `int()` truncation toward zero, applied to the box coordinates
in the handler's response assembly (`int(x1)` etc.). -/
def pyInt (q : ℚ) : ℤ := Int.tdiv q.num (q.den : ℤ)

/-- A formatted detection of the handler response body. -/
structure DetOut where
  label : String
  confidence : ℚ
  bx1 : ℤ
  by1 : ℤ
  bx2 : ℤ
  by2 : ℤ
deriving DecidableEq

/-- The JSON body of a handler response: either an error object or the
detections payload with its `count` field. -/
inductive HandlerBody where
  | err (msg : String)
  | payload (dets : List DetOut) (count : ℕ)
deriving DecidableEq

/-- A handler response dictionary (headers carry no logic and are
omitted). -/
structure HandlerResp where
  statusCode : ℕ
  body : HandlerBody

/-- The state of the Lambda event after the handler's parse step
(`json.loads(event["body"]) if isinstance(..., str) else event`, then
`body.get("image")`): either the parse raised (malformed JSON body or a
non-dict payload, an exception caught by the blanket `except`) or it
produced the optional `image` field (`none` = absent).  The
`conf_threshold`/`iou_threshold` fields only flow into inference and are
absorbed into the inference outcome parameter. -/
structure EventModel where
  parsed : Except String (Option String)

/-- The handler's response-formatting loop over `result.boxes`: each row
carries `(cls_id, confidence, box)`; the name lookup `model.names[cls_id]`
may raise `KeyError`, which aborts the loop (and is caught as a 500). -/
def assembleDets : List (ℕ × ℚ × Box) → Except String (List DetOut)
  | [] => .ok []
  | (cls, conf, b) :: rest =>
      match handlerClsName COCO_NAMES cls with
      | .error e => .error e
      | .ok nm =>
          match assembleDets rest with
          | .error e => .error e
          | .ok tail =>
              .ok (⟨nm, conf, pyInt b.x1, pyInt b.y1, pyInt b.x2, pyInt b.y2⟩ :: tail)

/-- `lambda_handler`: the entire body runs inside `try`.  A parse failure
is caught as 500; a missing or empty (falsy) `image` field returns 400
before any decoding; a decode/inference failure (the `inference` parameter
models the b64decode → PIL → `model.predict` composite) is caught as 500;
an assembly failure (unknown class id) is caught as 500; otherwise 200 with
the detections and `count = len(detections)`. -/
def lambda_handler (ev : EventModel)
    (inference : Except String (List (ℕ × ℚ × Box))) : HandlerResp :=
  match ev.parsed with
  | .error e => ⟨500, .err e⟩
  | .ok img =>
      if img.getD "" = "" then ⟨400, .err "Missing 'image' field"⟩
      else
        match inference with
        | .error e => ⟨500, .err e⟩
        | .ok rows =>
            match assembleDets rows with
            | .error e => ⟨500, .err e⟩
            | .ok dets => ⟨200, .payload dets dets.length⟩

/-- Claim C10: the Lambda handler is total over its event input — every
event/inference outcome yields a response with a `statusCode` of 200, 400
or 500 and no exception escapes; the code is 400 exactly when the request
parsed but its `image` field is missing or empty; and every 200 response
body carries `count` equal to the length of its detections list. -/
theorem c10_handler_total (ev : EventModel)
    (inference : Except String (List (ℕ × ℚ × Box))) :
    ((lambda_handler ev inference).statusCode = 200
      ∨ (lambda_handler ev inference).statusCode = 400
      ∨ (lambda_handler ev inference).statusCode = 500)
    ∧ ((lambda_handler ev inference).statusCode = 400
        ↔ ∃ img, ev.parsed = .ok img ∧ img.getD "" = "")
    ∧ ((lambda_handler ev inference).statusCode = 200
        → ∃ dets, (lambda_handler ev inference).body
            = HandlerBody.payload dets dets.length) := by
  unfold lambda_handler
  rcases hev : ev.parsed with e | img
  · refine ⟨Or.inr (Or.inr rfl), ?_, ?_⟩
    · simp [hev]
    · intro h
      simp at h
  · dsimp only
    by_cases himg : img.getD "" = ""
    · rw [if_pos himg]
      refine ⟨Or.inr (Or.inl rfl), ?_, ?_⟩
      · simp [hev, himg]
      · intro h
        simp at h
    · rw [if_neg himg]
      rcases inference with e | rows
      · refine ⟨Or.inr (Or.inr rfl), ?_, ?_⟩
        · simp [hev, himg]
        · intro h
          simp at h
      · dsimp only
        rcases hasm : assembleDets rows with e | dets
        · refine ⟨Or.inr (Or.inr rfl), ?_, ?_⟩
          · simp [hev, himg]
          · intro h
            simp at h
        · exact ⟨Or.inl rfl, by simp [hev, himg], fun _ => ⟨dets, rfl⟩⟩

/-- Claim C10 witness: a parsed event with a non-empty image and an
inference returning no boxes yields a 200 whose count matches its (empty)
detections list. -/
theorem c10_witness :
    ∃ dets, (lambda_handler ⟨Except.ok (some "x")⟩ (Except.ok [])).body
      = HandlerBody.payload dets dets.length :=
  (c10_handler_total ⟨Except.ok (some "x")⟩ (Except.ok [])).2.2 rfl
